import Mathlib

/-!
Verification of the bnfparsing library (somemarsupials/bnfparsing).

Python strings are modelled as `List Char` (`Str`).  The matcher contract
of `src/bnfparsing/parser.py` — a function from a remaining-input string to
a pair of an optional `Token` and a string — is modelled by
`Str -> Option (Except PErr (Option Token × Str))`, where the outer
`Option` is fuel exhaustion of the shallow interpreter and `PErr` collects
the Python exceptions the code can raise while matching.

Every definition mirrors one function of the source:
  * `Token`, `Token.add`, `Token.value`, `tokenEqTok`, `tokenEqStr`,
    `Token.toBool`  — `src/bnfparsing/token.py`
  * `is_literal`, `split_tokens`  — `src/bnfparsing/utils.py`
  * `wsIgnore`, `wsIgnoreSpecific`, `wsRequire`  — `src/bnfparsing/whitespace.py`
  * `compileGroups`, `newRule`, `fromFunction`, `evalLiteral`,
    `evalGroupWith`, `evalChoiceGo`, `evalRule`, `pyParse`
    — `src/bnfparsing/parser.py`
  * `ruleDecor`, `ruleWithOption`, `initRegisters`  — the `rule` /
    `rule_with_option` decorators and the registration loop of
    `ParserBase.__init__` in `src/bnfparsing/parser.py`
-/

/-- Python strings are lists of characters. -/
abbrev Str := List Char

/-- The NUL character `chr(0)`, used by the library as a marker (utils.NULL). -/
def NULLC : Char := Char.ofNat 0

/-- Python `str.isspace` character class for the characters the library can
meet: space, tab, newline, carriage return, vertical tab, form feed. -/
def isSpaceCh (c : Char) : Bool :=
  c = ' ' || c = '\t' || c = '\n' || c = '\r' ||
  c = Char.ofNat 11 || c = Char.ofNat 12

/-- Python `s.isspace()`: true iff the string is non-empty and every
character is whitespace. -/
def pyIsSpace (s : Str) : Bool :=
  !s.isEmpty && s.all isSpaceCh

/-- Python `s.lstrip()` with no argument. -/
def pyLStrip (s : Str) : Str := s.dropWhile isSpaceCh

/-- Python `s.strip()` with no argument. -/
def pyStrip (s : Str) : Str :=
  ((s.dropWhile isSpaceCh).reverse.dropWhile isSpaceCh).reverse

/-- Worker for `pySplitWS`; `cur` holds the current word reversed. -/
def splitWSGo (cur : Str) : Str → List Str
  | [] => if cur.isEmpty then [] else [cur.reverse]
  | c :: rest =>
    if isSpaceCh c then
      if cur.isEmpty then splitWSGo [] rest
      else cur.reverse :: splitWSGo [] rest
    else splitWSGo (c :: cur) rest

/-- Python `s.split()` with no argument: split on runs of whitespace,
producing no empty parts. -/
def pySplitWS (s : Str) : List Str := splitWSGo [] s

/-- Python `s.split(sep)` for a single-character separator. -/
def splitOnChar (sep : Char) : Str → List Str
  | [] => [[]]
  | c :: rest =>
    match splitOnChar sep rest with
    | [] => [[]]
    | g :: gs => if c = sep then [] :: g :: gs else (c :: g) :: gs

/-- Python `s.startswith(phrase)`. -/
def pyStartsWith : Str → Str → Bool
  | [], _ => true
  | _ :: _, [] => false
  | p :: ps, c :: cs => p = c && pyStartsWith ps cs

/-- Python `s.replace(chr(0), ch)` — single-character replacement. -/
def replaceNull (ch : Char) (s : Str) : Str :=
  s.map fun c => if c = NULLC then ch else c

/-- Python `s.replace('\\|', chr(0))` in `ParserBase.new_rule`:
each backslash-pipe pair becomes the NUL marker. -/
def replaceEscPipe : Str → Str
  | [] => []
  | [c] => [c]
  | a :: b :: rest =>
    if a = '\\' && b = '|' then NULLC :: replaceEscPipe rest
    else a :: replaceEscPipe (b :: rest)

/-- Python `s.replace('\\"', chr(0))` in `split_tokens`:
each backslash-quote pair becomes the NUL marker. -/
def replaceEscQuote : Str → Str
  | [] => []
  | [c] => [c]
  | a :: b :: rest =>
    if a = '\\' && b = '"' then NULLC :: replaceEscQuote rest
    else a :: replaceEscQuote (b :: rest)

/-- Python `c[-1]` as an option (last character of a string). -/
def lastChar : Str → Option Char
  | [] => none
  | [c] => some c
  | _ :: c :: rest => lastChar (c :: rest)

/-- `utils.is_literal`: true for strings that begin and end with a double
quote and have length above one.  (Single quotes are NOT accepted.) -/
def is_literal (c : Str) : Bool :=
  c.head? = some '"' && lastChar c = some '"' && c.length > 1

/-- Worker for `split_tokens`: walk the quote-split groups, alternating the
`in_literal` flag; non-literal groups are stripped and word-split, literal
groups are re-wrapped in double quotes. -/
def splitTokensGo : Bool → List Str → List Str
  | _, [] => []
  | inLit, g :: gs =>
    let g' := replaceNull '"' g
    (if !inLit && !g'.isEmpty && !pyIsSpace g' then pySplitWS (pyStrip g')
     else if inLit then ['"' :: (g' ++ ['"'])]
     else [])
    ++ splitTokensGo (!inLit) gs

/-- `utils.split_tokens`: split a rule-group string into atoms.  Returns
`none` where Python raises `ValueError` (unfinished literal: an even number
of quote-split groups). -/
def split_tokens (s : Str) : Option (List Str) :=
  let replaced := replaceEscQuote s
  let groups := splitOnChar '"' replaced
  if groups.length % 2 = 0 then none
  else some (splitTokensGo false groups)

/-- Exceptions the modelled code can raise, collapsed to their kinds. -/
inductive PErr where
  | attributeError
  | keyError
  | indexError
  | runtimeError
  | valueError
  | badEntry
  | notFound
  | incomplete (rem : Str)
  | delimiter
  deriving DecidableEq, Repr

/-- `token.Token`: a parse-tree node with a type tag, literal text and
children.  The mutable `parent` back-reference is not needed by any claim
and is not modelled. -/
structure Token where
  token_type : Option Str
  text : Str
  children : List Token

/-- Python truthiness of a `Token` (`Token.__bool__`):
`bool(self.token_type or self.text)`. -/
def Token.toBool (t : Token) : Bool :=
  (match t.token_type with
   | some ty => !ty.isEmpty
   | none => false) || !t.text.isEmpty

/-- `Token.add`: appending a child raises `RuntimeError` when the token
already carries literal text; otherwise the child joins the end of the
children list. -/
def Token.add (t c : Token) : Except PErr Token :=
  if !t.text.isEmpty then .error .runtimeError
  else .ok { t with children := t.children ++ [c] }

mutual

/-- `Token.value` (with the default `with_whitespace=False`): a token with
both children and text raises `RuntimeError` (modelled as `none`); a token
with children concatenates the children's recursive values; otherwise the
token's own text is returned. -/
def Token.value : Token → Option Str
  | ⟨_, tx, cs⟩ =>
    if !cs.isEmpty && !tx.isEmpty then none
    else if !cs.isEmpty then (Token.valueList cs).map (fun vs => vs.flatten)
    else some tx

/-- Values of a list of tokens, failing if any child's value fails. -/
def Token.valueList : List Token → Option (List Str)
  | [] => some []
  | c :: rest =>
    match Token.value c, Token.valueList rest with
    | some v, some vs => some (v :: vs)
    | _, _ => none

end

/-- `Token.__eq__` against another token: compare the two values; a raise
in either value is modelled as `none`. -/
def tokenEqTok (a b : Token) : Option Bool :=
  match Token.value a, Token.value b with
  | some va, some vb => some (va == vb)
  | _, _ => none

/-- `Token.__eq__` against a plain string. -/
def tokenEqStr (a : Token) (s : Str) : Option Bool :=
  match Token.value a with
  | some va => some (va == s)
  | none => none

/-- Tokens producible by the public construction interface: the constructor
(no children) and successful `add` calls. -/
inductive TokenBuilt : Token → Prop where
  | mk (ty : Option Str) (tx : Str) : TokenBuilt ⟨ty, tx, []⟩
  | add (t c t' : Token) : TokenBuilt t → TokenBuilt c →
      Token.add t c = .ok t' → TokenBuilt t'

/-- Attribute state of a Python function object, restricted to the two
attribute names the library reads: `is_rule` (RULE_ATTR) and
`ws_handling` (WS_ATTR).  `none` means the attribute is absent. -/
structure FuncAttrs where
  ruleAttr : Option Bool
  wsAttr : Option Bool
  deriving DecidableEq, Repr

/-- A function object before any decoration: neither attribute set. -/
def freshAttrs : FuncAttrs := ⟨none, none⟩

/-- The `rule` decorator: `setattr(function, RULE_ATTR, True)`. -/
def ruleDecor (a : FuncAttrs) : FuncAttrs := { a with ruleAttr := some true }

/-- The `rule_with_option(ws_handling)` decorator: first applies `rule`,
then overwrites RULE_ATTR with the flag value.  WS_ATTR is never set. -/
def ruleWithOption (wsHandling : Bool) (a : FuncAttrs) : FuncAttrs :=
  let a1 := ruleDecor a
  { a1 with ruleAttr := some wsHandling }

/-- The registration loop of `ParserBase.__init__` for one method: the
method is stored in `rules` iff RULE_ATTR is present (`hasattr`), and in
`no_handling` iff WS_ATTR is present and truthy.  Returns
(registered as rule, entered into no_handling). -/
def initRegisters (a : FuncAttrs) : Bool × Bool :=
  if a.ruleAttr.isSome then
    (true, a.wsAttr.isSome && a.wsAttr.getD false)
  else (false, false)

/-- A compiled or installed rule in the registry: `new_rule` stores the
group structure produced by the compiler; `from_function` stores an
arbitrary matcher obeying the raw Python signature. -/
inductive RuleV where
  | compiled (groups : List (List Str))
  | custom (f : Str → Option Token × Str)

/-- Association-list lookup, modelling dictionary access. -/
def lookupRule (k : Str) : List (Str × RuleV) → Option RuleV
  | [] => none
  | (k', v) :: rest => if k' = k then some v else lookupRule k rest

/-- Dictionary update `d[k] = v`: replace in place or append. -/
def setAssoc (k : Str) (v : RuleV) : List (Str × RuleV) → List (Str × RuleV)
  | [] => [(k, v)]
  | (k', v') :: rest =>
    if k' = k then (k, v) :: rest else (k', v') :: setAssoc k v rest

/-- Parser state: the rule registry, the `no_handling` name set, the
whitespace handler and the entry-rule name (`self.main`). -/
structure Env where
  rules : List (Str × RuleV)
  noHandling : List Str
  wsHandler : Option (Str → Str)
  main : Option Str

/-- Python truthiness of an optional string (`None` and `''` are falsy). -/
def optStrTruthy : Option Str → Bool
  | none => false
  | some s => !s.isEmpty

/-- `whitespace.ignore`: drop a leading NUL start-of-input marker, then
strip all leading whitespace. -/
def wsIgnore (s : Str) : Str :=
  let s1 := match s with
    | c :: rest => if c = NULLC then rest else s
    | [] => []
  pyLStrip s1

/-- `whitespace.ignore_specific(chars)`: drop a leading NUL marker, then
strip leading characters belonging to `chars`. -/
def wsIgnoreSpecific (chars : Str) (s : Str) : Str :=
  let s1 := match s with
    | c :: rest => if c = NULLC then rest else s
    | [] => []
  s1.dropWhile (fun c => c ∈ chars)

/-- `whitespace.require(whitespace, ignore)`: at the start-of-input marker
only the marker is dropped; otherwise the input must begin with the exact
required phrase or the delimiter error is raised; the phrase is consumed,
plus any further whitespace when `ignore` is set. -/
def wsRequire (phrase : Str) (ign : Bool) (s : Str) : Except PErr Str :=
  match s with
  | c :: rest =>
    if c = NULLC then .ok rest
    else if s.take phrase.length ≠ phrase then .error .delimiter
    else .ok (if ign then pyLStrip (s.drop phrase.length) else s.drop phrase.length)
  | [] =>
    if ([] : Str).take phrase.length ≠ phrase then .error .delimiter
    else .ok (if ign then pyLStrip ([] : Str) else ([] : Str))

/-- Class names defined in `src/bnfparsing/exceptions.py`. -/
def exceptionsDefined : List Str :=
  ["ParserBaseException".toList, "BadRuleError".toList, "BadEntryError".toList,
   "IncompleteParseError".toList, "NotFoundError".toList,
   "DelimiterException".toList]

/-- The name `src/bnfparsing/whitespace.py` imports from `.exceptions`
(line 5: `from .exceptions import DelimiterError`). -/
def whitespaceImportsName : Str := "DelimiterError".toList

/-- The compilation pipeline of `ParserBase.new_rule`: escape pipes, split
the rule body on the remaining pipes, restore pipes inside each group and
tokenize it.  `none` where `split_tokens` raises `ValueError`. -/
def compileGroups (ruleStr : Str) : Option (List (List Str)) :=
  let escaped := replaceEscPipe ruleStr
  let parts := splitOnChar '|' escaped
  parts.mapM (fun g => split_tokens (replaceNull '|' g))

/-- `ParserBase.new_rule` as a registry transformation: duplicate names are
rejected without `force`; the compiled rule is stored and becomes the entry
rule when `main` is set or no entry rule exists yet. -/
def newRule (env : Env) (name ruleStr : Str) (mainFlag force : Bool) :
    Except PErr Env :=
  if (lookupRule name env.rules).isSome && !force then .error .valueError
  else
    match compileGroups ruleStr with
    | none => .error .valueError
    | some groups =>
      let env1 := if mainFlag || !optStrTruthy env.main then
                    { env with main := some name } else env
      .ok { env1 with rules := setAssoc name (.compiled groups) env1.rules }

/-- `ParserBase.from_function` as a registry transformation.  Note the
faithful quirk: the duplicate check inspects the `name` argument BEFORE it
is defaulted to the function's own name (`fname`), so passing no name
bypasses the check.  `ws_handling=True` enters the rule into
`no_handling`. -/
def fromFunction (env : Env) (f : Str → Option Token × Str) (fname : Str)
    (nameArg : Option Str) (wsHandling mainFlag force : Bool) :
    Except PErr Env :=
  let inRules := match nameArg with
    | some n => (lookupRule n env.rules).isSome
    | none => false
  if inRules && !force then .error .valueError
  else
    let name := match nameArg with
      | some n => if n.isEmpty then fname else n
      | none => fname
    let env1 := if mainFlag || !optStrTruthy env.main then
                  { env with main := some name } else env
    let env2 := if wsHandling then
                  (if name ∈ env1.noHandling then env1
                   else { env1 with noHandling := env1.noHandling ++ [name] })
                else env1
    .ok { env2 with rules := setAssoc name (.custom f) env2.rules }

/-- `ParserBase.literal`: remember the original string, run the whitespace
handler when one is set, then match the phrase; failure restores the
original (pre-stripping) string. -/
def evalLiteral (env : Env) (phrase s : Str) : Option Token × Str :=
  let original := s
  let s1 := match env.wsHandler with
    | some h => h s
    | none => s
  if pyStartsWith phrase s1 then
    (some ⟨some "literal".toList, phrase, []⟩, s1.drop phrase.length)
  else (none, original)

/-- A matcher in the modelled contract: outer `none` is interpreter fuel
exhaustion, `Except` carries raised exceptions, and the payload is the
Python pair of an optional token and the remaining string. -/
abbrev MRes := Option (Except PErr (Option Token × Str))

/-- One atom of a group, as matched inside `make_group`: a double-quoted
atom is a literal; otherwise the atom names a rule — its matcher is looked
up (raising `KeyError` when absent) and, when the name is in `no_handling`
and a whitespace handler is set, the handler runs before the call. -/
def evalAtomWith (env : Env) (ref : Str → Str → MRes) (item s : Str) : MRes :=
  if is_literal item then
    some (.ok (evalLiteral env ((item.drop 1).dropLast) s))
  else
    match lookupRule item env.rules with
    | none => some (.error .keyError)
    | some _ =>
      let s1 := match env.wsHandler with
        | some h => if item ∈ env.noHandling then h s else s
        | none => s
      ref item s1

/-- The multi-atom loop of `make_group`: each truthy token joins the master
token; a falsy result aborts with the ORIGINAL string of the sequence. -/
def evalSeqGo (env : Env) (ref : Str → Str → MRes) (original : Str) :
    Token → List Str → Str → MRes
  | master, [], s => some (.ok (some master, s))
  | master, item :: rest, s =>
    match evalAtomWith env ref item s with
    | none => none
    | some (.error e) => some (.error e)
    | some (.ok (tok, s')) =>
      match tok with
      | some t =>
        if t.toBool then
          match master.add t with
          | .error e => some (.error e)
          | .ok m' => evalSeqGo env ref original m' rest s'
        else some (.ok (none, original))
      | none => some (.ok (none, original))

/-- `make_group`: a group of several atoms matches them in sequence under a
fresh master token; a single-atom group delegates to the atom and renames a
truthy result's type to the rule name; an empty group models the
`group[0]` `IndexError`. -/
def evalGroupWith (env : Env) (ref : Str → Str → MRes) (name : Str)
    (group : List Str) (s : Str) : MRes :=
  match group with
  | [] => some (.error .indexError)
  | [item] =>
    match evalAtomWith env ref item s with
    | none => none
    | some (.error e) => some (.error e)
    | some (.ok (tok, s')) =>
      let tok' := match tok with
        | some t => if t.toBool then some { t with token_type := some name }
                    else some t
        | none => none
      some (.ok (tok', s'))
  | _ :: _ :: _ =>
    evalSeqGo env ref s ⟨some name, [], []⟩ group s

/-- The loop of `make_choice`: each group matcher runs on the string the
previous one returned; on the first truthy token the code calls
`token.tag(name)` — `Token` defines no `tag` method, so this raises
`AttributeError`; if no group produces a truthy token, the threaded string
is returned with no token. -/
def evalChoiceGo (env : Env) (ref : Str → Str → MRes) (name : Str) :
    List (List Str) → Str → MRes
  | [], s => some (.ok (none, s))
  | g :: gs, s =>
    match evalGroupWith env ref name g s with
    | none => none
    | some (.error e) => some (.error e)
    | some (.ok (tok, s')) =>
      match tok with
      | some t =>
        if t.toBool then some (.error .attributeError)
        else evalChoiceGo env ref name gs s'
      | none => evalChoiceGo env ref name gs s'

/-- Dispatch on a registry entry, as `new_rule` builds matchers: several
groups become a choice, one group becomes that group's matcher, and a
custom rule simply runs its function. -/
def evalRuleVWith (env : Env) (ref : Str → Str → MRes) (name : Str)
    (rv : RuleV) (s : Str) : MRes :=
  match rv with
  | .custom f => some (.ok (f s))
  | .compiled groups =>
    match groups with
    | [] => some (.error .indexError)
    | [g] => evalGroupWith env ref name g s
    | _ :: _ :: _ => evalChoiceGo env ref name groups s

/-- Run the named rule from the registry: rule references resolve through
the registry at call time (`self.rules[item]`), so recursion is supported;
the fuel bounds the call depth. -/
def evalRule (env : Env) : Nat → Str → Str → MRes
  | 0, _, _ => none
  | fuel + 1, name, s =>
    match lookupRule name env.rules with
    | none => some (.error .keyError)
    | some rv => evalRuleVWith env (fun n t => evalRule env fuel n t) name rv s

/-- Entry-rule resolution of `ParserBase.parse`: an explicit truthy `main`
argument that is registered wins, then the configured `self.main`; all
remaining situations raise `BadEntryError`. -/
def resolveEntry (env : Env) (mainArg : Option Str) : Except PErr Str :=
  if optStrTruthy mainArg && (lookupRule (mainArg.getD []) env.rules).isSome then
    .ok (mainArg.getD [])
  else if optStrTruthy env.main && (lookupRule (env.main.getD []) env.rules).isSome then
    .ok (env.main.getD [])
  else .error .badEntry

/-- `ParserBase.parse`: resolve the entry matcher, prepend the NUL
start-of-input marker when a whitespace handler is set, run the matcher,
then raise `IncompleteParseError` on a truthy token with unconsumed input
(unless partial parses are allowed) and `NotFoundError` when no token was
produced. -/
def pyParse (env : Env) (fuel : Nat) (mainArg : Option Str)
    (allowPartial : Bool) (input : Str) : Option (Except PErr Token) :=
  match resolveEntry env mainArg with
  | .error e => some (.error e)
  | .ok entry =>
    let s0 := match env.wsHandler with
      | some _ => NULLC :: input
      | none => input
    match evalRule env fuel entry s0 with
    | none => none
    | some (.error e) => some (.error e)
    | some (.ok (tok, unconsumed)) =>
      match tok with
      | some t =>
        if t.toBool && !unconsumed.isEmpty && !allowPartial then
          some (.error (.incomplete unconsumed))
        else some (.ok t)
      | none => some (.error .notFound)

/-- The empty parser state, as built by `ParserBase.__init__` with no
marked methods and no whitespace handler. -/
def env0 : Env := ⟨[], [], none, none⟩

/-- A custom matcher that always fails, returning its input unchanged
(the matcher contract's failure shape). -/
def fcFail : Str → Option Token × Str := fun s => (none, s)

/-- A second always-failing custom matcher, used as the overwriting rule in
the duplicate-registration counterexample. -/
def fcNew : Str → Option Token × Str := fun s => (none, s)

/-- Rule name `foo`. -/
def fooName : Str := ['f', 'o', 'o']

/-- Rule name `d`. -/
def dName : Str := ['d']

/-- Rule name `single`. -/
def singleName : Str := ['s', 'i', 'n', 'g', 'l', 'e']

/-- Rule name `branch` (from the repository's own `test_branching`). -/
def branchName : Str := ['b', 'r', 'a', 'n', 'c', 'h']

/-- Rule name `r`. -/
def ruleNameR : Str := ['r']

/-- Rule name `lit`. -/
def litName : Str := ['l', 'i', 't']

/-- The characters of `hello`. -/
def helloStr : Str := ['h', 'e', 'l', 'l', 'o']

/-- Wrap a phrase in double quotes, as a quoted literal atom appears after
tokenization. -/
def dquote (L : Str) : Str := '"' :: (L ++ ['"'])

/-- The atom `'hello'` written with single quotes. -/
def sqHello : Str := ['\'', 'h', 'e', 'l', 'l', 'o', '\'']

/-- The atom `"null"`. -/
def qNull : Str := dquote ['n', 'u', 'l', 'l']

/-- The atom `"hello"`. -/
def dqHello : Str := dquote helloStr

/-- The rule body `"null" | "hello"` of `test_branching`. -/
def ruleBranch : Str :=
  qNull ++ [' ', '|', ' '] ++ dqHello

/-- The atom `"a"`. -/
def qA : Str := dquote ['a']

/-- The atom `"b"`. -/
def qB : Str := dquote ['b']

/-- Parser state holding the single rule `lit := "L"` as entry rule, the
result of compiling a one-literal grammar. -/
def litEnv (L : Str) : Env :=
  ⟨[(litName, .compiled [[dquote L]])], [], none, some litName⟩

/-- Parser state after `new_rule('r', "'hello'")` (single-quoted atom). -/
def envSq : Env := ⟨[(ruleNameR, .compiled [[sqHello]])], [], none, some ruleNameR⟩

/-- Parser state after `new_rule('r', '"hello"')` (double-quoted atom). -/
def envDq : Env := ⟨[(ruleNameR, .compiled [[dqHello]])], [], none, some ruleNameR⟩

/-- Parser state after `new_rule('branch', '"null" | "hello"')`. -/
def envBranch : Env :=
  ⟨[(branchName, .compiled [[qNull], [dqHello]])], [], none, some branchName⟩

/-- Parser state with the `ignore` whitespace handler, a failing custom
rule `d` registered with whitespace handling (hence in `no_handling`), and
the compiled single-atom rule `single := d`. -/
def envWS : Env :=
  ⟨[(singleName, .compiled [[dName]]), (dName, .custom fcFail)],
   [dName], some wsIgnore, some singleName⟩

/-- Parser state already holding a rule named `foo`. -/
def envFoo : Env := ⟨[(fooName, .custom fcFail)], [], none, some fooName⟩

/-- The state `envFoo` becomes when `from_function` silently replaces
`foo`. -/
def envFooAfter : Env :=
  ⟨[(fooName, .custom fcNew)], [fooName], none, some fooName⟩

/-- A reference resolver that never answers, for matcher-level statements
that touch no rule reference. -/
def refNone : Str → Str → MRes := fun _ _ => none

/-- Parser state with the `ignore` whitespace handler and no rules, for
exercising `literal` under whitespace stripping. -/
def envIgn : Env := ⟨[], [], some wsIgnore, none⟩

/-- A leaf token with text `ab`. -/
def tokA : Token := ⟨some ['x'], ['a', 'b'], []⟩

/-- An aggregate token whose two leaf children spell `ab`. -/
def tokB : Token := ⟨some ['y'], [], [⟨none, ['a'], []⟩, ⟨none, ['b'], []⟩]⟩

/-- Failure of the multi-atom sequence loop always reports the original
string the sequence started from, whatever the atoms consumed. -/
theorem evalSeqGo_fail (env : Env) (ref : Str → Str → MRes) (orig : Str) :
    ∀ (items : List Str) (m : Token) (s out : Str),
      evalSeqGo env ref orig m items s = some (.ok (none, out)) → out = orig := by
  intro items
  induction items with
  | nil =>
    intro m s out h
    simp [evalSeqGo] at h
  | cons item rest ih =>
    intro m s out h
    rw [evalSeqGo] at h
    split at h
    · exact absurd h (by simp)
    · exact absurd h (by simp)
    · split at h
      · split at h
        · split at h
          · exact absurd h (by simp)
          · exact ih _ _ out h
        · simp only [Option.some.injEq, Except.ok.injEq, Prod.mk.injEq] at h
          exact h.2.symm
      · simp only [Option.some.injEq, Except.ok.injEq, Prod.mk.injEq] at h
        exact h.2.symm

/-- Failure of a matcher compiled from a group of more than one atom
reports the string the group matcher was handed. -/
theorem groupSeqFail (env : Env) (ref : Str → Str → MRes)
    (name : Str) (group : List Str) (s out : Str)
    (hlen : 1 < group.length)
    (h : evalGroupWith env ref name group s = some (.ok (none, out))) :
    out = s := by
  match group, hlen, h with
  | a :: b :: rest, _, h =>
    rw [evalGroupWith] at h
    exact evalSeqGo_fail env ref s (a :: b :: rest) ⟨some name, [], []⟩ s out h

/-- Failure of `ParserBase.literal` restores the string it was handed,
before any whitespace stripping. -/
theorem evalLiteral_fail (env : Env) (phrase s out : Str)
    (h : evalLiteral env phrase s = (none, out)) : out = s := by
  simp only [evalLiteral] at h
  cases hw : env.wsHandler with
  | none =>
    rw [hw] at h
    split at h
    · exact absurd h (by simp)
    · exact (Prod.ext_iff.mp h).2.symm
  | some hh =>
    rw [hw] at h
    split at h
    · exact absurd h (by simp)
    · exact (Prod.ext_iff.mp h).2.symm

/-- Claim C1: the choice matcher is meant to return the token of the first
successful group; instead, on the first truthy token `make_choice` calls
`token.tag(name)` and `Token` defines no `tag` method, so the successful
path raises `AttributeError`.  Shown on the repository's own
`test_branching` grammar `branch := "null" | "hello"` with input
`hello`. -/
theorem C1_choice_success_raises_attribute_error :
    compileGroups ruleBranch = some [[qNull], [dqHello]] ∧
    newRule env0 branchName ruleBranch true false = .ok envBranch ∧
    pyParse envBranch 2 none false helloStr = some (.error .attributeError) :=
  ⟨by decide, rfl, rfl⟩

/-- Claim C2: the `require` handler does fail with the distinct delimiter
kind when the required whitespace is absent; but the name `whitespace.py`
imports for it, `DelimiterError`, is not among the classes
`exceptions.py` defines (it defines `DelimiterException`), so importing
the whitespace module raises `ImportError` before any handler can run. -/
theorem C2_delimiter_name_mismatch :
    wsRequire [' '] false ['x'] = .error .delimiter ∧
    whitespaceImportsName ∉ exceptionsDefined ∧
    "DelimiterException".toList ∈ exceptionsDefined :=
  ⟨rfl, by decide, by decide⟩

/-- Claim C3: a multi-atom sequence matcher that fails returns the
no-match signal with the input string exactly as it was before the first
atom was attempted, however many atoms had already consumed input. -/
theorem C3_sequence_all_or_nothing (env : Env) (ref : Str → Str → MRes)
    (name : Str) (group : List Str) (s out : Str)
    (hlen : 1 < group.length)
    (h : evalGroupWith env ref name group s = some (.ok (none, out))) :
    out = s :=
  groupSeqFail env ref name group s out hlen h

/-- Witness for C3 at the concrete sequence `"a" "b"` on input `ac`:
the first atom consumes `a`, the second fails, the reported string is the
untouched `ac`. -/
theorem C3_sequence_all_or_nothing_witness :
    1 < ([qA, qB] : List Str).length ∧ (['a', 'c'] : Str) = ['a', 'c'] :=
  ⟨by decide,
   C3_sequence_all_or_nothing env0 refNone litName [qA, qB]
     ['a', 'c'] ['a', 'c'] (by decide) rfl⟩

/-- Claim C4 (amended): on failure, the literal matcher and the multi-atom
sequence matcher restore the string from before whitespace stripping; the
claim's further assertion that single-atom rule-reference matchers do too
is false (see the counterexample). -/
theorem C4_failure_restores_amended (env : Env) (phrase s lOut : Str)
    (envG : Env) (refG : Str → Str → MRes) (nameG : Str)
    (group : List Str) (sG outG : Str)
    (h1 : evalLiteral env phrase s = (none, lOut))
    (hlen : 1 < group.length)
    (h2 : evalGroupWith envG refG nameG group sG = some (.ok (none, outG))) :
    lOut = s ∧ outG = sG :=
  ⟨evalLiteral_fail env phrase s lOut h1,
   groupSeqFail envG refG nameG group sG outG hlen h2⟩

/-- Witness for C4 with the `ignore` handler active: `literal('a')` on
input space-`b` strips to `b`, fails, and restores the space. -/
theorem C4_failure_restores_amended_witness :
    ([' ', 'b'] : Str) = [' ', 'b'] ∧ (['a', 'c'] : Str) = ['a', 'c'] :=
  C4_failure_restores_amended envIgn ['a'] [' ', 'b'] [' ', 'b']
    env0 refNone litName [qA, qB] ['a', 'c'] ['a', 'c']
    rfl (by decide) rfl

/-- Counterexample to C4 as stated: with the `ignore` handler active and a
whitespace-handled custom rule `d` that fails, the compiled single-atom
rule `single := d` applied to space-`x` returns the post-stripping string
`x`, not the original space-`x`. -/
theorem C4_single_atom_leaks_stripping :
    evalRule envWS 2 singleName [' ', 'x'] = some (.ok (none, ['x'])) ∧
    (['x'] : Str) ≠ [' ', 'x'] :=
  ⟨rfl, by decide⟩

/-- Claim C6: both quote styles are supposed to mark literals; in fact only
double quotes do.  `new_rule('r', chr39 hello chr39)` keeps the quotes in
the atom, `is_literal` rejects it, and matching treats it as a rule-name
reference, raising `KeyError`; the double-quoted twin matches `hello`. -/
theorem C6_single_quotes_not_literal :
    is_literal dqHello = true ∧ is_literal sqHello = false ∧
    split_tokens dqHello = some [dqHello] ∧
    split_tokens sqHello = some [sqHello] ∧
    newRule env0 ruleNameR dqHello true false = .ok envDq ∧
    newRule env0 ruleNameR sqHello true false = .ok envSq ∧
    pyParse envDq 2 none false helloStr = some (.ok ⟨some ruleNameR, helloStr, []⟩) ∧
    pyParse envSq 2 none false helloStr = some (.error .keyError) :=
  ⟨by decide, by decide, by decide, by decide, rfl, rfl, rfl, rfl⟩

/-- Claim C7: adding a child to a token that carries literal text raises
`RuntimeError`, and no token built through the constructor and successful
`add` calls ever holds non-empty text together with children. -/
theorem C7_text_excludes_children :
    (∀ t c : Token, t.text ≠ [] → Token.add t c = .error .runtimeError) ∧
    (∀ t : Token, TokenBuilt t → t.text ≠ [] → t.children = []) := by
  constructor
  · intro t c h
    have hf : t.text.isEmpty = false := by
      cases htx : t.text with
      | nil => exact absurd htx h
      | cons a r => rfl
    simp [Token.add, hf]
  · intro t hb
    induction hb with
    | mk ty tx => intro _; rfl
    | add t c t' hbt hbc hadd iht ihc =>
      intro hne
      unfold Token.add at hadd
      split at hadd
      · exact absurd hadd (by simp)
      · rename_i hcond
        cases hadd
        simp at hcond
        simp [hcond] at hne

/-- Witness for C7 on concrete leaves. -/
theorem C7_text_excludes_children_witness :
    Token.add ⟨none, ['a'], []⟩ ⟨none, ['b'], []⟩ = .error .runtimeError ∧
    (⟨none, ['a'], []⟩ : Token).children = [] :=
  ⟨C7_text_excludes_children.1 ⟨none, ['a'], []⟩ ⟨none, ['b'], []⟩ (by decide),
   C7_text_excludes_children.2 ⟨none, ['a'], []⟩ (TokenBuilt.mk none ['a'])
     (by decide)⟩

/-- Claim C8: an aggregate token with empty text evaluates to the ordered
concatenation of its children's values, and token equality (against tokens
and against plain strings) is exactly value equality, independent of tree
shape. -/
theorem C8_value_concat_eq (ty : Option Str) (cs : List Token) (vs : List Str)
    (a b : Token) (s va vb : Str)
    (hcs : cs ≠ []) (hvs : Token.valueList cs = some vs)
    (hva : Token.value a = some va) (hvb : Token.value b = some vb) :
    Token.value ⟨ty, [], cs⟩ = some vs.flatten ∧
    (tokenEqTok a b = some true ↔ va = vb) ∧
    (tokenEqStr a s = some true ↔ va = s) := by
  refine ⟨?_, ?_, ?_⟩
  · rw [Token.value]
    simp [hcs, hvs]
  · simp [tokenEqTok, hva, hvb]
  · simp [tokenEqStr, hva]

/-- Witness for C8: the leaf `ab` and the aggregate of leaves `a`, `b`
have equal values and compare equal, and the aggregate's value is the
concatenation. -/
theorem C8_value_concat_eq_witness :
    Token.value ⟨none, [], [tokA]⟩ = some ([['a', 'b']] : List Str).flatten ∧
    (tokenEqTok tokA tokB = some true ↔ (['a', 'b'] : Str) = ['a', 'b']) ∧
    (tokenEqStr tokA ['a', 'b'] = some true ↔ (['a', 'b'] : Str) = ['a', 'b']) :=
  C8_value_concat_eq none [tokA] [['a', 'b']] tokA tokB ['a', 'b']
    ['a', 'b'] ['a', 'b'] (by simp) (by simp [Token.valueList, Token.value, tokA])
    (by simp [Token.value, tokA]) (by simp [Token.value, Token.valueList, tokB])

/-- Claim C9 (amended): registering under an existing name without the
force flag fails for `new_rule` always and for `from_function` whenever
the name is passed explicitly; when the name argument is omitted the
duplicate check inspects the unset argument and is bypassed (see the
counterexample). -/
theorem C9_duplicate_rejected_amended (env : Env) (name ruleStr : Str)
    (mf : Bool) (env2 : Env) (f : Str → Option Token × Str) (fname n : Str)
    (wsH mf2 : Bool)
    (h1 : (lookupRule name env.rules).isSome = true)
    (h2 : (lookupRule n env2.rules).isSome = true) :
    newRule env name ruleStr mf false = .error .valueError ∧
    fromFunction env2 f fname (some n) wsH mf2 false = .error .valueError := by
  constructor
  · simp [newRule, h1]
  · simp [fromFunction, h2]

/-- Witness for C9 on a registry already holding `foo`. -/
theorem C9_duplicate_rejected_amended_witness :
    newRule envFoo fooName dqHello false false = .error .valueError ∧
    fromFunction envFoo fcNew fooName (some fooName) true false false
      = .error .valueError :=
  C9_duplicate_rejected_amended envFoo fooName dqHello false envFoo fcNew
    fooName fooName true false rfl rfl

/-- Counterexample to C9 as stated: with the name taken from the function's
own name (`name=None`), `from_function` bypasses the duplicate check and
silently replaces the existing rule `foo` — no error is raised. -/
theorem C9_from_function_name_bypass :
    fromFunction envFoo fcNew fooName none true false false = .ok envFooAfter :=
  rfl

/-- Claim C10: the `ws_handling` argument of `rule_with_option` has no
effect on whitespace handling: for either flag value the RULE_ATTR marker
is present (so the method is registered as a rule) but holds the flag's
value, WS_ATTR is never set, and the method never enters `no_handling`. -/
theorem C10_ws_handling_flag_ineffective : ∀ ws : Bool,
    initRegisters (ruleWithOption ws freshAttrs) = (true, false) ∧
    (ruleWithOption ws freshAttrs).wsAttr = none ∧
    (ruleWithOption ws freshAttrs).ruleAttr = some ws := by decide

theorem replaceNull_id (ch : Char) (u : Str) (h : ∀ c ∈ u, c ≠ NULLC) :
    replaceNull ch u = u := by
  induction u with
  | nil => rfl
  | cons a r ih =>
    have ha : a ≠ NULLC := h a (by simp)
    have hr : replaceNull ch r = r := ih (fun c hc => h c (by simp [hc]))
    simp only [replaceNull, List.map_cons] at hr ⊢
    rw [if_neg ha, hr]

theorem replaceEscPipe_id (u : Str) (h : ∀ c ∈ u, c ≠ '\\') :
    replaceEscPipe u = u := by
  induction u with
  | nil => rfl
  | cons a r ih =>
    cases r with
    | nil => rfl
    | cons b r2 =>
      have ha : a ≠ '\\' := h a (by simp)
      have hr : replaceEscPipe (b :: r2) = b :: r2 :=
        ih (fun c hc => h c (by simp [hc]))
      rw [replaceEscPipe, if_neg (by simp [ha]), hr]

theorem replaceEscQuote_id (u : Str) (h : ∀ c ∈ u, c ≠ '\\') :
    replaceEscQuote u = u := by
  induction u with
  | nil => rfl
  | cons a r ih =>
    cases r with
    | nil => rfl
    | cons b r2 =>
      have ha : a ≠ '\\' := h a (by simp)
      have hr : replaceEscQuote (b :: r2) = b :: r2 :=
        ih (fun c hc => h c (by simp [hc]))
      rw [replaceEscQuote, if_neg (by simp [ha]), hr]

theorem splitOnChar_no_sep (sep : Char) (u : Str) (h : ∀ c ∈ u, c ≠ sep) :
    splitOnChar sep u = [u] := by
  induction u with
  | nil => rfl
  | cons a r ih =>
    have hr := ih (fun c hc => h c (by simp [hc]))
    rw [splitOnChar, hr]
    simp [h a (by simp)]

theorem splitOnChar_concat_sep (sep : Char) (L : Str) (h : ∀ c ∈ L, c ≠ sep) :
    splitOnChar sep (L ++ [sep]) = [L, []] := by
  induction L with
  | nil => simp [splitOnChar]
  | cons a t ih =>
    have ht := ih (fun c hc => h c (by simp [hc]))
    rw [List.cons_append, splitOnChar, ht]
    simp [h a (by simp)]

theorem splitOnChar_dquote (L : Str) (h : ∀ c ∈ L, c ≠ '"') :
    splitOnChar '"' (dquote L) = [[], L, []] := by
  rw [dquote, splitOnChar, splitOnChar_concat_sep '"' L h]
  simp

theorem lastChar_concat (u : Str) (a : Char) : lastChar (u ++ [a]) = some a := by
  induction u with
  | nil => rfl
  | cons b r ih =>
    cases r with
    | nil => rfl
    | cons c r2 =>
      simp only [List.cons_append] at ih ⊢
      rw [lastChar]
      exact ih

theorem lastChar_cons_concat (b : Char) (u : Str) (a : Char) :
    lastChar (b :: (u ++ [a])) = some a := by
  have hb : b :: (u ++ [a]) = (b :: u) ++ [a] := by simp
  rw [hb, lastChar_concat]

theorem is_literal_dquote (L : Str) : is_literal (dquote L) = true := by
  simp [is_literal, dquote, lastChar_cons_concat]

theorem dequote_dquote (L : Str) : ((dquote L).drop 1).dropLast = L := by
  simp [dquote]

theorem tail_dropLast_dquote (L : Str) : (List.tail (dquote L)).dropLast = L := by
  simp [dquote]

theorem dquote_len_sub (L : Str) : (dquote L).length - 1 - 1 = L.length := by
  simp [dquote]

theorem pyStartsWith_app (l r : Str) : pyStartsWith l (l ++ r) = true := by
  induction l with
  | nil => rfl
  | cons a t ih => simp [pyStartsWith, ih]

theorem pyStartsWith_self (l : Str) : pyStartsWith l l = true := by
  have h := pyStartsWith_app l []
  rw [List.append_nil] at h
  exact h

theorem pyStartsWith_longer (p t : Str) (ht : t ≠ []) :
    pyStartsWith (p ++ t) p = false := by
  induction p with
  | nil =>
    cases t with
    | nil => exact absurd rfl ht
    | cons c cs => rfl
  | cons a ps ih => simp [pyStartsWith, ih]

theorem drop_len_app (l r : Str) : (l ++ r).drop l.length = r := by
  induction l with
  | nil => rfl
  | cons a t ih => simp

theorem splitTokensGo_lit (L : Str) (h : ∀ c ∈ L, c ≠ NULLC) :
    splitTokensGo false [[], L, []] = [dquote L] := by
  simp [splitTokensGo, replaceNull_id '"' L h, pyIsSpace, dquote,
    show replaceNull '"' ([] : Str) = [] from rfl]

theorem split_tokens_dquote (L : Str)
    (hq : ∀ c ∈ L, c ≠ '"') (hb : ∀ c ∈ L, c ≠ '\\') (hn : ∀ c ∈ L, c ≠ NULLC) :
    split_tokens (dquote L) = some [dquote L] := by
  have hnb : ∀ c ∈ dquote L, c ≠ '\\' := by
    intro c hc
    rw [dquote] at hc
    simp at hc
    rcases hc with h1 | h2 | h3
    · rw [h1]; decide
    · exact hb c h2
    · rw [h3]; decide
  have he : replaceEscQuote (dquote L) = dquote L := replaceEscQuote_id _ hnb
  simp only [split_tokens, he, splitOnChar_dquote L hq]
  simp [splitTokensGo_lit L hn]

theorem compileGroups_dquote (L : Str)
    (hq : ∀ c ∈ L, c ≠ '"') (hb : ∀ c ∈ L, c ≠ '\\')
    (hp : ∀ c ∈ L, c ≠ '|') (hn : ∀ c ∈ L, c ≠ NULLC) :
    compileGroups (dquote L) = some [[dquote L]] := by
  have hnb : ∀ c ∈ dquote L, c ≠ '\\' := by
    intro c hc
    rw [dquote] at hc
    simp at hc
    rcases hc with h1 | h2 | h3
    · rw [h1]; decide
    · exact hb c h2
    · rw [h3]; decide
  have hnp : ∀ c ∈ dquote L, c ≠ '|' := by
    intro c hc
    rw [dquote] at hc
    simp at hc
    rcases hc with h1 | h2 | h3
    · rw [h1]; decide
    · exact hp c h2
    · rw [h3]; decide
  have hnn : ∀ c ∈ dquote L, c ≠ NULLC := by
    intro c hc
    rw [dquote] at hc
    simp at hc
    rcases hc with h1 | h2 | h3
    · rw [h1]; decide
    · exact hn c h2
    · rw [h3]; decide
  have h1 : replaceEscPipe (dquote L) = dquote L := replaceEscPipe_id _ hnb
  have h2 : splitOnChar '|' (dquote L) = [dquote L] := splitOnChar_no_sep '|' _ hnp
  have h3 : replaceNull '|' (dquote L) = dquote L := replaceNull_id '|' _ hnn
  simp only [compileGroups, h1, h2]
  simp [List.mapM, List.mapM.loop, h3, split_tokens_dquote L hq hb hn]

theorem newRule_dquote (L : Str)
    (hq : ∀ c ∈ L, c ≠ '"') (hb : ∀ c ∈ L, c ≠ '\\')
    (hp : ∀ c ∈ L, c ≠ '|') (hn : ∀ c ∈ L, c ≠ NULLC) :
    newRule env0 litName (dquote L) true false = .ok (litEnv L) := by
  simp only [newRule, compileGroups_dquote L hq hb hp hn]
  simp [env0, litEnv, setAssoc, lookupRule]

theorem evalRule_litEnv (L input : Str) :
    evalRule (litEnv L) 1 litName input =
      some (.ok (
        if pyStartsWith L input then
          (some ⟨some litName, L, []⟩, input.drop L.length)
        else (none, input))) := by
  rw [evalRule]
  have hl : lookupRule litName (litEnv L).rules = some (.compiled [[dquote L]]) := rfl
  rw [hl]
  by_cases hsw : pyStartsWith L input
  · simp [evalRuleVWith, evalGroupWith, evalAtomWith, is_literal_dquote,
      tail_dropLast_dquote, dquote_len_sub, evalLiteral, litEnv, hsw, Token.toBool]
  · simp [evalRuleVWith, evalGroupWith, evalAtomWith, is_literal_dquote,
      tail_dropLast_dquote, dquote_len_sub, evalLiteral, litEnv, hsw]

/-- Claim C5: for a non-empty literal phrase `L` (free of the grammar
metacharacters quote, backslash, pipe and NUL, which a quoted literal atom
cannot contain unescaped), the parser whose entry rule compiles from the
single quoted literal `L` parses exactly `L` to a token valued `L`;
parsing `L` plus a non-empty suffix without `allow_partial` raises
`IncompleteParseError` carrying the suffix; parsing a strict non-empty
truncation of `L` raises `NotFoundError`. -/
theorem C5_literal_roundtrip (L s p t : Str)
    (hOK : ∀ c ∈ L, c ≠ '"' ∧ c ≠ '\\' ∧ c ≠ '|' ∧ c ≠ NULLC)
    (hL : L ≠ []) (hs : s ≠ []) (ht : t ≠ []) (hLp : L = p ++ t) :
    newRule env0 litName (dquote L) true false = .ok (litEnv L) ∧
    pyParse (litEnv L) 1 none false L = some (.ok ⟨some litName, L, []⟩) ∧
    pyParse (litEnv L) 1 none false (L ++ s) = some (.error (.incomplete s)) ∧
    pyParse (litEnv L) 1 none false p = some (.error .notFound) := by
  have hq : ∀ c ∈ L, c ≠ '"' := fun c hc => (hOK c hc).1
  have hb : ∀ c ∈ L, c ≠ '\\' := fun c hc => (hOK c hc).2.1
  have hp : ∀ c ∈ L, c ≠ '|' := fun c hc => (hOK c hc).2.2.1
  have hn : ∀ c ∈ L, c ≠ NULLC := fun c hc => (hOK c hc).2.2.2
  have hln : litName.isEmpty = false := rfl
  have hln2 : litName ≠ [] := by decide
  have hre : resolveEntry (litEnv L) none = .ok litName := by
    simp [resolveEntry, litEnv, optStrTruthy, lookupRule, hln, hln2]
  have hws : (litEnv L).wsHandler = none := rfl
  have hs' : s.isEmpty = false := by
    cases s with
    | nil => exact absurd rfl hs
    | cons a r => rfl
  refine ⟨newRule_dquote L hq hb hp hn, ?_, ?_, ?_⟩
  · simp [pyParse, hre, hws, evalRule_litEnv, pyStartsWith_self, Token.toBool,
      hln, hln2]
  · simp [pyParse, hre, hws, evalRule_litEnv, pyStartsWith_app, drop_len_app,
      Token.toBool, hs', hln, hln2]
  · have hre2 : resolveEntry (litEnv (p ++ t)) none = .ok litName := by
      simp [resolveEntry, litEnv, optStrTruthy, lookupRule, hln, hln2]
    have hws2 : (litEnv (p ++ t)).wsHandler = none := rfl
    rw [hLp]
    simp [pyParse, hre2, hws2, evalRule_litEnv, pyStartsWith_longer p t ht,
      hln, hln2]

/-- Witness for C5 at `L = ab`, extra `c`, truncation `a`. -/
theorem C5_literal_roundtrip_witness :
    newRule env0 litName (dquote ['a', 'b']) true false = .ok (litEnv ['a', 'b']) ∧
    pyParse (litEnv ['a', 'b']) 1 none false ['a', 'b']
      = some (.ok ⟨some litName, ['a', 'b'], []⟩) ∧
    pyParse (litEnv ['a', 'b']) 1 none false (['a', 'b'] ++ ['c'])
      = some (.error (.incomplete ['c'])) ∧
    pyParse (litEnv ['a', 'b']) 1 none false ['a']
      = some (.error .notFound) :=
  C5_literal_roundtrip ['a', 'b'] ['c'] ['a'] ['b'] (by decide) (by decide)
    (by decide) (by decide) rfl
